import Mathlib

/-!
# Verification of the thermodynamic-data generator

Shallow embedding of the core of `thermo_generator.py` (NASA-9 property
evaluator, chemical-formula decomposer, multi-source resolver, continuity
diagnostics/optimizer, cold-range coverage extender, theoretical estimator,
and the cache staleness check), together with theorems settling the frozen
claims about the program.

Modelling conventions:
* Python floats are modelled as real numbers (`ℝ`); `math.log` is `Real.log`.
  Where Python would raise (`math.log` on `T ≤ 0`, division by zero), the
  embedding either models the exception branch explicitly (the `try/except`
  of `check_transition_continuity`) or is only exercised at `T > 0`.
* Python dicts holding records are modelled as structures; optional keys
  (`"transition_diagnostics"`, `"optimizations"`, `"temperature-ranges"`)
  are `Option`-valued fields.  Human-readable string fields (timestamps,
  range descriptions, error texts) are environment-dependent and omitted.
* File-system and network effects are modelled by explicit parameters
  (an oracle for the per-source fetchers, an abstract timestamp-file state).
-/

namespace Thermo

/-! ## NASA-9 property evaluator (`compute_cp`, `compute_h`, `compute_s`) -/

/-- `compute_cp(coefs, T)`: `Cp/R = a1 + a2*T + a3*T^2 + a4*T^3 + a5*T^4`;
returns `0.0` when fewer than 5 coefficients are supplied. -/
noncomputable def compute_cp (coefs : List ℝ) (T : ℝ) : ℝ :=
  if coefs.length < 5 then 0
  else
    coefs.getD 0 0 + coefs.getD 1 0 * T + coefs.getD 2 0 * T ^ 2 +
      coefs.getD 3 0 * T ^ 3 + coefs.getD 4 0 * T ^ 4

/-- `compute_h(coefs, T, T_ref=298.15)`:
`H/RT = a1 + a2*T/2 + a3*T^2/3 + a4*T^3/4 + a5*T^4/5 + a6/T`;
returns `0.0` when fewer than 7 coefficients are supplied.  The `T_ref`
parameter is accepted (with the source's default) but never read. -/
noncomputable def compute_h (coefs : List ℝ) (T : ℝ) (T_ref : ℝ := 298.15) : ℝ :=
  if coefs.length < 7 then 0
  else
    coefs.getD 0 0 + coefs.getD 1 0 * T / 2 + coefs.getD 2 0 * T ^ 2 / 3 +
      coefs.getD 3 0 * T ^ 3 / 4 + coefs.getD 4 0 * T ^ 4 / 5 + coefs.getD 5 0 / T

/-- `compute_s(coefs, T)`:
`S/R = a1*ln(T) + a2*T + a3*T^2/2 + a4*T^3/3 + a5*T^4/4 + a7`;
returns `0.0` when fewer than 7 coefficients are supplied. -/
noncomputable def compute_s (coefs : List ℝ) (T : ℝ) : ℝ :=
  if coefs.length < 7 then 0
  else
    coefs.getD 0 0 * Real.log T + coefs.getD 1 0 * T + coefs.getD 2 0 * T ^ 2 / 2 +
      coefs.getD 3 0 * T ^ 3 / 3 + coefs.getD 4 0 * T ^ 4 / 4 + coefs.getD 6 0

/-! ## Theoretical estimator: coefficient synthesis (`generate_coeffs_for_range`)

The unused local `t_mid = (t_min + t_max) / 2` of the source is dropped. -/

/-- `generate_coeffs_for_range(cp_r, s_r_298, is_monatomic, temp_range)`:
synthesizes a 9-slot NASA-9 coefficient vector from an estimated reduced heat
capacity and standard entropy, with band-dependent scaling of `a1`–`a5`,
`a6 = -1.0`, `a7` back-solved so the entropy formula reproduces `s_r_298`
at `298.15 K`, and `a8 = a9 = 0`. -/
noncomputable def generate_coeffs_for_range (cp_r s_r_298 : ℝ) (is_monatomic : Bool)
    (temp_range : ℝ × ℝ) : List ℝ :=
  let t_max := temp_range.2
  let b1 : ℝ := if is_monatomic then cp_r else cp_r * 0.9
  let b2 : ℝ := if is_monatomic then 0 else cp_r * 0.02
  let b3 : ℝ := if is_monatomic then 0 else cp_r * 0.002
  let b4 : ℝ := if is_monatomic then 0 else -cp_r * 0.0001
  let b5 : ℝ := if is_monatomic then 0 else -cp_r * 0.00001
  let a1 : ℝ := if t_max < 500 then b1 * 1.1 else if t_max > 3000 then b1 * 0.9 else b1
  let a2 : ℝ := if t_max < 500 then b2 * 0.8 else if t_max > 3000 then b2 * 1.2 else b2
  let a3 : ℝ := if t_max < 500 then b3 * 0.6 else if t_max > 3000 then b3 * 1.3 else b3
  let a4 : ℝ := if t_max < 500 then b4 * 0.4 else if t_max > 3000 then b4 * 1.5 else b4
  let a5 : ℝ := if t_max < 500 then b5 * 0.2 else if t_max > 3000 then b5 * 1.8 else b5
  let a6 : ℝ := -1.0
  let a7 : ℝ := s_r_298 -
    (a1 * Real.log 298.15 + a2 * 298.15 + a3 * 298.15 ^ 2 / 2 +
      a4 * 298.15 ^ 3 / 3 + a5 * 298.15 ^ 4 / 4)
  [a1, a2, a3, a4, a5, a6, a7, 0, 0]

/-! ## Formula decomposer (`decompose_formula`, `parse_formula_section`)

Compositions are Python dicts `element → count`; they are modelled as
association lists (`List (String × Nat)`) in insertion order, with
`addCount` implementing `dict` update-or-append.  `Char.isUpper` /
`Char.isLower` / `Char.isDigit` model Python's `str.isupper` etc. on the
ASCII formulas the program handles.  The source's `while` loop over an index
is translated into recursion with an explicit fuel argument; the wrapper
supplies fuel `length + 1`, which the loop (consuming at least one character
per step) never exhausts.  The dead local `charge` (computed but only used in
commented-out code) is dropped. -/

/-- `dict` update: add `n` to the entry for `e`, appending a new entry if
`e` is not yet a key. -/
def addCount : List (String × Nat) → String → Nat → List (String × Nat)
  | [], e, n => [(e, n)]
  | (k, v) :: rest, e, n =>
      if k = e then (k, v + n) :: rest else (k, v) :: addCount rest e n

/-- Merge a second composition into a first, entry by entry
(`for element, count in sub.items(): ...`). -/
def mergeInto (acc sub : List (String × Nat)) : List (String × Nat) :=
  sub.foldl (fun a p => addCount a p.1 p.2) acc

/-- Total count recorded for element `e` (sum over matching entries). -/
def countOf (l : List (String × Nat)) (e : String) : Nat :=
  (l.map (fun p => if p.1 = e then p.2 else 0)).sum

/-- The scan for the matching closing parenthesis (`open_count` bookkeeping of
the source): given the characters after an `'('` and the current depth,
returns the span up to the matching `')'` and the remainder after it, or
`none` when the parenthesis is unbalanced. -/
def splitParen : List Char → Nat → Option (List Char × List Char)
  | [], _ => none
  | c :: cs, depth =>
      if c = '(' then
        match splitParen cs (depth + 1) with
        | some (ins, rest) => some (c :: ins, rest)
        | none => none
      else if c = ')' then
        if depth = 1 then some ([], cs)
        else
          match splitParen cs (depth - 1) with
          | some (ins, rest) => some (c :: ins, rest)
          | none => none
      else
        match splitParen cs depth with
        | some (ins, rest) => some (c :: ins, rest)
        | none => none

/-- Numeric value of one digit character. -/
def digitVal (c : Char) : Nat := c.toNat - '0'.toNat

/-- Split a leading run of digit characters from the rest
(the `while section[i].isdigit()` loops of the source). -/
def takeDigits : List Char → List Char × List Char
  | [] => ([], [])
  | c :: cs =>
      if c.isDigit then
        let p := takeDigits cs
        (c :: p.1, p.2)
      else ([], c :: cs)

/-- `int` on a digit string. -/
def digitsToNat (ds : List Char) : Nat :=
  ds.foldl (fun a c => a * 10 + digitVal c) 0

/-- `int(count_str) if count_str else 1`. -/
def countValue (ds : List Char) : Nat :=
  if ds = [] then 1 else digitsToNat ds

/-- The element-symbol match: an uppercase character `c` followed by a
lowercase character makes a two-letter symbol, otherwise `c` alone;
returns the symbol and the remaining characters. -/
def elemTake (c : Char) (cs : List Char) : String × List Char :=
  match cs with
  | d :: cs' => if d.isLower then (⟨[c, d]⟩, cs') else (⟨[c]⟩, cs)
  | [] => (⟨[c]⟩, [])

/-- The body of `parse_formula_section`: one recursive descent over the
section, threading the accumulated composition.  `fuel` bounds the recursion
and is never exhausted when it exceeds the section length. -/
def parseLoop : Nat → List Char → Nat → List (String × Nat) → List (String × Nat)
  | 0, _, _, acc => acc
  | _ + 1, [], _, acc => acc
  | fuel + 1, c :: cs, mult, acc =>
      if c = '(' then
        match splitParen cs 1 with
        | none => acc
        | some (sub, rest) =>
            let p := takeDigits rest
            let subMult := countValue p.1
            let subCounts := parseLoop fuel sub (subMult * mult) []
            parseLoop fuel p.2 mult (mergeInto acc subCounts)
      else if c.isUpper then
        let er := elemTake c cs
        let p := takeDigits er.2
        parseLoop fuel p.2 mult (addCount acc er.1 (countValue p.1 * mult))
      else
        parseLoop fuel cs mult acc

/-- `parse_formula_section(section, multiplier)`. -/
def parse_formula_section (sec : List Char) (multiplier : Nat := 1) : List (String × Nat) :=
  parseLoop (sec.length + 1) sec multiplier []

/-- `str.split('.')`: split on every dot, keeping empty segments; always
returns at least one segment. -/
def splitDots : List Char → List (List Char)
  | [] => [[]]
  | c :: cs =>
      if c = '.' then [] :: splitDots cs
      else
        match splitDots cs with
        | p :: ps => (c :: p) :: ps
        | [] => [[c]]

/-- Whether `pat` occurs at the head of `l`. -/
def startsWithSeq : List Char → List Char → Bool
  | [], _ => true
  | _ :: _, [] => false
  | p :: ps, c :: cs => p = c && startsWithSeq ps cs

/-- Whether `pat` occurs somewhere in `l` (Python's `pat in l`). -/
def hasSubSeq (pat : List Char) : List Char → Bool
  | [] => startsWithSeq pat []
  | c :: cs => startsWithSeq pat (c :: cs) || hasSubSeq pat cs

/-- The hydrate scan: the first of the dot-separated tail parts containing
`"H2O"` yields the hydrate multiplier (all digit characters of that part,
concatenated; `1` if there are none). -/
def findHydrate : List (List Char) → Option Nat
  | [] => none
  | part :: parts =>
      if hasSubSeq ['H', '2', 'O'] part then
        some (countValue (part.filter Char.isDigit))
      else findHydrate parts

/-- Normalisation of the formula string: hydrate dots standardised
(`'·'`/`'*'` to `'.'`) and the charge indicators `'+'`/`'-'` removed. -/
def cleanChars (formula : String) : List Char :=
  (formula.data.map (fun c => if c = '·' ∨ c = '*' then '.' else c)).filter
    (fun c => ¬(c = '+' ∨ c = '-'))

/-- Composition of a cleaned formula: the main (first dot-separated) part is
parsed, and a recognised hydrate part contributes `hydrate_count` copies of
`H2O` when its multiplier is positive. -/
def decompose_core (clean : List Char) : List (String × Nat) :=
  match findHydrate (splitDots clean).tail with
  | some hcount =>
      if 0 < hcount then
        mergeInto (parse_formula_section ((splitDots clean).headD []))
          (parse_formula_section ['H', '2', 'O'] hcount)
      else parse_formula_section ((splitDots clean).headD [])
  | none => parse_formula_section ((splitDots clean).headD [])

/-- `decompose_formula(formula)`: elemental composition of a formula string,
as an insertion-ordered association list. -/
def decompose_formula (formula : String) : List (String × Nat) :=
  if formula = "e-" then [("E", 1)]
  else if cleanChars formula = [] then []
  else decompose_core (cleanChars formula)

/-! ## Species thermo records

Python dict records are modelled as structures.  Optional keys are
`Option`-valued; the human-readable `range1_to_range2` description, error
text and ISO timestamps (environment-dependent strings) are omitted. -/

/-- One temperature range: `{"T-min": _, "T-max": _, "T-ref": _,
"coefficients": [...]}`. -/
structure TempRange where
  tmin : ℝ
  tmax : ℝ
  tref : ℝ
  coefficients : List ℝ

/-- One entry of `"transition_diagnostics"`.  In the exceptional branch of
`check_transition_continuity` (where the Python computation raises) the
numeric fields and the `within_tolerance` key are absent. -/
structure TransDiag where
  transition_temperature : ℝ
  cp_discontinuity : Option ℝ
  h_discontinuity : Option ℝ
  s_discontinuity : Option ℝ
  within_tolerance : Option Bool

/-- One entry of `"optimizations"` (timestamp omitted). -/
structure OptEvent where
  type : String
  applied : Bool
  tolerance : ℝ

/-- A species thermodynamic record. -/
structure ThermoData where
  name : String
  source : String
  composition : List (String × Nat)
  ranges : Option (List TempRange)
  transition_diagnostics : Option (List TransDiag)
  optimizations : Option (List OptEvent)

/-! ## Multi-source resolver (`get_thermo_data`)

The four per-source fetchers (`fetch_burcat_data` etc.) perform cache and
network I/O; they are modelled by an oracle `fetch : source → species →
Option ThermoData` giving the record each source can produce (Python's falsy
`None`/empty-dict results are `none`).  The theoretical fallback
(`calculate_thermo_from_first_principles`) is likewise a parameter. -/

/-- `SOURCES`: the fixed priority order of the upstream sources. -/
def SOURCES : List String := ["burcat", "cea", "nasa", "nist"]

/-- The source loop of `get_thermo_data`: first successful fetch wins and its
`"source"` field is overwritten with the producing source's identifier. -/
def resolveSources (fetch : String → String → Option ThermoData) (species : String) :
    List String → Option ThermoData
  | [] => none
  | src :: rest =>
      match fetch src species with
      | some data => some { data with source := src }
      | none => resolveSources fetch species rest

/-- `get_thermo_data(species)`: experimental sources in priority order, then
the theoretical fallback, else `None`. -/
def get_thermo_data (fetch : String → String → Option ThermoData)
    (theo : String → Option ThermoData) (species : String) : Option ThermoData :=
  match resolveSources fetch species SOURCES with
  | some data => some data
  | none => theo species

/-! ## Continuity diagnostics and optimizer
(`check_transition_continuity`, `optimize_transition_continuity`) -/

/-- Diagnostics for one adjacent pair of ranges, evaluated at `T-max` of the
lower range.  The Python `try/except` branch (reached exactly when the float
computation raises, i.e. `T ≤ 0` with at least 7 coefficients on one side,
making `math.log` or `a6/T` fail) produces a diagnostic without numeric
fields. -/
noncomputable def checkPair (r1 r2 : TempRange) : TransDiag :=
  let T := r1.tmax
  if T ≤ 0 ∧ (7 ≤ r1.coefficients.length ∨ 7 ≤ r2.coefficients.length) then
    { transition_temperature := T, cp_discontinuity := none, h_discontinuity := none,
      s_discontinuity := none, within_tolerance := none }
  else
    let cpd := compute_cp r2.coefficients T - compute_cp r1.coefficients T
    let hd := compute_h r2.coefficients T r1.tref - compute_h r1.coefficients T r1.tref
    let sd := compute_s r2.coefficients T - compute_s r1.coefficients T
    { transition_temperature := T, cp_discontinuity := some cpd, h_discontinuity := some hd,
      s_discontinuity := some sd,
      within_tolerance := some (decide (|cpd| < 1e-3 ∧ |hd| < 1e-3 ∧ |sd| < 1e-3)) }

/-- `check_transition_continuity(thermo_data)`: appends one diagnostic per
adjacent pair of ranges (creating the key when absent); records with fewer
than 2 ranges are returned untouched. -/
noncomputable def check_transition_continuity (d : ThermoData) : ThermoData :=
  match d.ranges with
  | none => d
  | some rs =>
      if rs.length < 2 then d
      else
        { d with transition_diagnostics := some (d.transition_diagnostics.getD [] ++
            (rs.zip rs.tail).map fun p => checkPair p.1 p.2) }

/-- The per-pair adjustment loop of `optimize_transition_continuity`
(`for iteration in range(max_adjustments)`): stops early once all three
discontinuities are within tolerance, otherwise nudges `a6` by 50% of the
enthalpy gap, `a7` by 50% of the entropy gap, and — when the heat-capacity
gap exceeds tolerance — `a1` by 25% of it with a further distribution over
`a2..a5` scaled by inverse powers of the boundary temperature. -/
noncomputable def adjustLoop : Nat → List ℝ → List ℝ → ℝ → ℝ → ℝ → List ℝ
  | 0, _, coefs2, _, _, _ => coefs2
  | fuel + 1, coefs1, coefs2, T, tref, tol =>
      let cpd := compute_cp coefs2 T - compute_cp coefs1 T
      let hd := compute_h coefs2 T tref - compute_h coefs1 T tref
      let sd := compute_s coefs2 T - compute_s coefs1 T
      if |cpd| < tol ∧ |hd| < tol ∧ |sd| < tol then coefs2
      else
        let c1 := coefs2.set 5 (coefs2.getD 5 0 - hd * T * 0.5)
        let c2 := c1.set 6 (c1.getD 6 0 - sd * 0.5)
        let c3 :=
          if tol < |cpd| then
            let c0 := c2.set 0 (c2.getD 0 0 - cpd * 0.25)
            if 5 ≤ c0.length then
              (List.range' 1 4).foldl
                (fun acc j => acc.set j (acc.getD j 0 - cpd * 0.25 * 0.25 / T ^ j)) c0
            else c0
          else c2
        adjustLoop fuel coefs1 c3 T tref tol

/-- One step of the pair loop of `optimize_transition_continuity`: pairs with
fewer than 7 coefficients on either side are skipped, otherwise the upper
range's coefficients are replaced by the adjusted ones (the Python loop
mutates the shared list, so later pairs see earlier updates). -/
noncomputable def adjustStep (tol : ℝ) (maxAdj : Nat) (rs : List TempRange) (i : Nat) :
    List TempRange :=
  match rs.get? i, rs.get? (i + 1) with
  | some r1, some r2 =>
      if r1.coefficients.length < 7 ∨ r2.coefficients.length < 7 then rs
      else
        rs.set (i + 1)
          { r2 with coefficients :=
              adjustLoop maxAdj r1.coefficients r2.coefficients r1.tmax r1.tref tol }
  | _, _ => rs

/-- The pair loop (`for i in range(len(ranges) - 1)`). -/
noncomputable def adjustAllPairs (tol : ℝ) (maxAdj : Nat) (rs : List TempRange) :
    List TempRange :=
  (List.range (rs.length - 1)).foldl (adjustStep tol maxAdj) rs

/-- `if "transition_diagnostics" not in thermo_data: thermo_data =
check_transition_continuity(thermo_data)`. -/
noncomputable def effectiveDiagRecord (d : ThermoData) : ThermoData :=
  match d.transition_diagnostics with
  | none => check_transition_continuity d
  | some _ => d

/-- `needs_adjustment = any(not diag.get("within_tolerance", True) for diag in
diagnostics if "within_tolerance" in diag)`. -/
def needsAdjustment (d1 : ThermoData) : Bool :=
  (d1.transition_diagnostics.getD []).any fun g =>
    match g.within_tolerance with
    | some b => !b
    | none => false

/-- `optimize_transition_continuity(thermo_data, tolerance=1e-3,
max_adjustments=10)`: runs diagnostics when absent, returns early (with no
optimization event) when no diagnostic is out of tolerance, otherwise
adjusts every adjacent pair, appends an optimization event (`applied` is the
`needs_adjustment` flag, hence `true` whenever the event is created) and
re-runs the diagnostics. -/
noncomputable def optimize_transition_continuity (d : ThermoData) (tolerance : ℝ := 1e-3)
    (max_adjustments : Nat := 10) : ThermoData :=
  match d.ranges with
  | none => d
  | some rs =>
      if rs.length < 2 then d
      else if needsAdjustment (effectiveDiagRecord d) then
        check_transition_continuity
          { effectiveDiagRecord d with
            ranges := some (adjustAllPairs tolerance max_adjustments rs),
            optimizations := some ((effectiveDiagRecord d).optimizations.getD [] ++
              [{ type := "transition_continuity",
                 applied := needsAdjustment (effectiveDiagRecord d),
                 tolerance := tolerance }]) }
      else effectiveDiagRecord d

/-! ## Coverage extender (`ensure_cold_range_coverage`) -/

/-- `TEMP_COLD_RANGE = (100.0, 400.0)`. -/
noncomputable def TEMP_COLD_RANGE : ℝ × ℝ := (100, 400)

/-- Stable insertion of a range into a list sorted by `T-min`. -/
noncomputable def insertByTmin (r : TempRange) : List TempRange → List TempRange
  | [] => [r]
  | x :: xs => if r.tmin ≤ x.tmin then r :: x :: xs else x :: insertByTmin r xs

/-- `sorted(ranges, key=lambda r: r["T-min"])`: a stable sort by lower bound
(insertion sort; stable sorts of the same key agree with Python's). -/
noncomputable def sortRanges : List TempRange → List TempRange
  | [] => []
  | x :: xs => insertByTmin x (sortRanges xs)

/-- `ensure_cold_range_coverage(thermo_data, cold_range=TEMP_COLD_RANGE)`:
if some range fully or partially overlaps the cold band the record is
returned unchanged; otherwise a new lowest range is synthesized by copying
the coefficients of the lowest existing range (when it has at least 7),
spanning from the band's lower bound to that range's original lower bound. -/
noncomputable def ensure_cold_range_coverage (d : ThermoData)
    (cold_range : ℝ × ℝ := TEMP_COLD_RANGE) : ThermoData :=
  match d.ranges with
  | none => d
  | some rs =>
      if rs.isEmpty then d
      else
        let sorted := sortRanges rs
        let covered := sorted.any fun r =>
          decide (r.tmin ≤ cold_range.1 ∧ cold_range.2 ≤ r.tmax) ||
            decide (r.tmin ≤ cold_range.2 ∧ cold_range.1 ≤ r.tmax)
        if covered then d
        else
          match sorted with
          | [] => d
          | closest :: _ =>
              if closest.coefficients.length < 7 then d
              else
                { d with ranges := some (TempRange.mk cold_range.1 closest.tmin
                    closest.tref closest.coefficients :: sorted) }

/-! ## Cache staleness check (`should_update_database`)

The timestamp file is modelled by an abstract state (absent / unreadable /
readable content); `datetime.fromisoformat` is an abstract parser returning
an epoch time, and `datetime.now()` an explicit `now`, both in seconds. -/

/-- State of a version-check (timestamp) file. -/
inductive TimestampFile
  | absent
  | unreadable
  | content (s : String)

/-- `CHECK_INTERVAL = timedelta(days=7)`, in seconds. -/
def CHECK_INTERVAL : Int := 7 * 24 * 60 * 60

/-- `should_update_database(version_check_file)`: `True` when the file does
not exist; a read failure or a parse failure (`ValueError`/`IOError`, caught)
also yields `True`; otherwise `True` iff the elapsed time exceeds the check
interval. -/
def should_update_database (file : TimestampFile) (parseIso : String → Option Int)
    (now : Int) : Bool :=
  match file with
  | .absent => true
  | .unreadable => true
  | .content s =>
      match parseIso s.trim with
      | none => true
      | some last => decide (CHECK_INTERVAL < now - last)

/-! ## Concrete records used in the claim analyses -/

/-- A temperature range with 9 coefficients and `T-max = 400 K`. -/
noncomputable def cr4 : TempRange := ⟨200, 400, 298.15, [2.5, 0, 0, 0, 0, -1, 10, 0, 0]⟩

/-- A record with two identical ranges: all boundary discontinuities are
zero, hence within the `1e-3` tolerance. -/
noncomputable def rec4 : ThermoData := ⟨"N2", "burcat", [("N", 2)], some [cr4, cr4], none, none⟩

/-- A record whose single (lowest) range starts at 200 K. -/
noncomputable def rec5 : ThermoData :=
  ⟨"O2", "cea", [("O", 2)],
    some [⟨200, 1000, 298.15, [2.5, 0, 0, 0, 0, -1, 10, 0, 0]⟩], none, none⟩

/-! ## Claim theorems about the evaluator and the estimator -/

/-- **C1.** For every coefficient list of length at least 5 (resp. 7) and every
`T > 0`, `compute_cp`, `compute_h` and `compute_s` return exactly the NASA-9
polynomial forms stated in the spec, and each returns `0.0` (instead of
failing) when the list is shorter than its minimum length (5 for heat
capacity, 7 for enthalpy and entropy). -/
theorem evaluator_formulas_and_short_vector_default
    (coefs : List ℝ) (T T_ref : ℝ) (hT : 0 < T) :
    (5 ≤ coefs.length →
      compute_cp coefs T =
        coefs.getD 0 0 + coefs.getD 1 0 * T + coefs.getD 2 0 * T ^ 2 +
          coefs.getD 3 0 * T ^ 3 + coefs.getD 4 0 * T ^ 4) ∧
    (7 ≤ coefs.length →
      compute_h coefs T T_ref =
        coefs.getD 0 0 + coefs.getD 1 0 * T / 2 + coefs.getD 2 0 * T ^ 2 / 3 +
          coefs.getD 3 0 * T ^ 3 / 4 + coefs.getD 4 0 * T ^ 4 / 5 + coefs.getD 5 0 / T) ∧
    (7 ≤ coefs.length →
      compute_s coefs T =
        coefs.getD 0 0 * Real.log T + coefs.getD 1 0 * T + coefs.getD 2 0 * T ^ 2 / 2 +
          coefs.getD 3 0 * T ^ 3 / 3 + coefs.getD 4 0 * T ^ 4 / 4 + coefs.getD 6 0) ∧
    (coefs.length < 5 → compute_cp coefs T = 0) ∧
    (coefs.length < 7 → compute_h coefs T T_ref = 0 ∧ compute_s coefs T = 0) := by
  refine ⟨fun h5 => ?_, fun h7 => ?_, fun h7 => ?_, fun h5 => ?_, fun h7 => ?_⟩
  · rw [compute_cp, if_neg (by omega)]
  · rw [compute_h, if_neg (by omega)]
  · rw [compute_s, if_neg (by omega)]
  · rw [compute_cp, if_pos h5]
  · exact ⟨by rw [compute_h, if_pos h7], by rw [compute_s, if_pos h7]⟩

/-- Witness for C1 at the concrete input `coefs = [1,2,3,4,5,6,7]`, `T = 2`
(and `coefs = [1,2]` for the short-vector branches). -/
theorem evaluator_formulas_witness :
    ((0:ℝ) < 2 ∧
      compute_cp [1, 2, 3, 4, 5, 6, 7] 2 = 1 + 2 * 2 + 3 * 2 ^ 2 + 4 * 2 ^ 3 + 5 * 2 ^ 4) ∧
    (compute_h [1, 2, 3, 4, 5, 6, 7] 2 298.15 =
      1 + 2 * 2 / 2 + 3 * 2 ^ 2 / 3 + 4 * 2 ^ 3 / 4 + 5 * 2 ^ 4 / 5 + 6 / 2) ∧
    (compute_s [1, 2, 3, 4, 5, 6, 7] 2 =
      1 * Real.log 2 + 2 * 2 + 3 * 2 ^ 2 / 2 + 4 * 2 ^ 3 / 3 + 5 * 2 ^ 4 / 4 + 7) ∧
    compute_cp [1, 2] 2 = 0 ∧ compute_h [1, 2] 2 298.15 = 0 ∧ compute_s [1, 2] 2 = 0 := by
  have h := evaluator_formulas_and_short_vector_default
    ([1, 2, 3, 4, 5, 6, 7] : List ℝ) 2 298.15 (by norm_num)
  have h' := evaluator_formulas_and_short_vector_default ([1, 2] : List ℝ) 2 298.15 (by norm_num)
  refine ⟨⟨by norm_num, ?_⟩, ?_, ?_, ?_, ?_, ?_⟩
  · simpa using h.1 (by simp)
  · simpa using h.2.1 (by simp)
  · simpa using h.2.2.1 (by simp)
  · simpa using h'.2.2.2.1 (by simp)
  · simpa using (h'.2.2.2.2 (by simp)).1
  · simpa using (h'.2.2.2.2 (by simp)).2

/-- **C10.** `compute_h` never reads its `T_ref` argument: for every
coefficient list and every `T > 0`, any two reference temperatures give the
same reduced enthalpy. -/
theorem compute_h_ignores_T_ref (coefs : List ℝ) (T T_ref₁ T_ref₂ : ℝ) (hT : 0 < T) :
    compute_h coefs T T_ref₁ = compute_h coefs T T_ref₂ := rfl

/-- Witness for C10 at `coefs = [1,2,3,4,5,6,7]`, `T = 3`, reference
temperatures `298.15` and `0`. -/
theorem compute_h_ignores_T_ref_witness :
    (0:ℝ) < 3 ∧ compute_h [1, 2, 3, 4, 5, 6, 7] 3 298.15 = compute_h [1, 2, 3, 4, 5, 6, 7] 3 0 :=
  ⟨by norm_num, compute_h_ignores_T_ref [1, 2, 3, 4, 5, 6, 7] 3 298.15 0 (by norm_num)⟩

/-- **C7.** Every coefficient vector synthesized by
`generate_coeffs_for_range` (any `cp_r`, `s_r_298`, monatomic flag and band)
reproduces the estimated standard entropy exactly when evaluated with
`compute_s` at `298.15 K`, and its `a8`/`a9` slots are zero. -/
theorem generate_coeffs_entropy_consistency (cp_r s_r_298 : ℝ) (is_monatomic : Bool)
    (temp_range : ℝ × ℝ) :
    compute_s (generate_coeffs_for_range cp_r s_r_298 is_monatomic temp_range) 298.15 = s_r_298 ∧
    (generate_coeffs_for_range cp_r s_r_298 is_monatomic temp_range).getD 7 0 = 0 ∧
    (generate_coeffs_for_range cp_r s_r_298 is_monatomic temp_range).getD 8 0 = 0 := by
  refine ⟨?_, ?_, ?_⟩
  · rw [generate_coeffs_for_range]
    cases is_monatomic <;> split_ifs <;>
      · simp only [compute_s, List.length_cons, List.length_nil, List.getD_cons_zero,
          List.getD_cons_succ]
        norm_num
  · rw [generate_coeffs_for_range]; simp
  · rw [generate_coeffs_for_range]; simp

/-! ## Lemmas about the formula decomposer -/

theorem countOf_nil (e : String) : countOf [] e = 0 := rfl

theorem countOf_cons (p : String × Nat) (l : List (String × Nat)) (e : String) :
    countOf (p :: l) e = (if p.1 = e then p.2 else 0) + countOf l e := by
  simp [countOf]

theorem countOf_cons_pair (k : String) (v : Nat) (l : List (String × Nat)) (e : String) :
    countOf ((k, v) :: l) e = (if k = e then v else 0) + countOf l e := by
  simp [countOf]

theorem countOf_addCount (l : List (String × Nat)) (s : String) (n : Nat) (e : String) :
    countOf (addCount l s n) e = countOf l e + (if s = e then n else 0) := by
  induction l with
  | nil => simp [addCount, countOf]
  | cons p rest ih =>
      obtain ⟨k, v⟩ := p
      rw [addCount]
      by_cases hk : k = s
      · rw [if_pos hk, countOf_cons_pair, countOf_cons_pair, hk]
        split_ifs <;> omega
      · rw [if_neg hk, countOf_cons_pair, ih, countOf_cons_pair]
        split_ifs <;> omega

theorem countOf_mergeInto (sub : List (String × Nat)) :
    ∀ (acc : List (String × Nat)) (e : String),
      countOf (mergeInto acc sub) e = countOf acc e + countOf sub e := by
  induction sub with
  | nil => intro acc e; simp [mergeInto, countOf]
  | cons p rest ih =>
      intro acc e
      have hstep : mergeInto acc (p :: rest) = mergeInto (addCount acc p.1 p.2) rest := rfl
      rw [hstep, ih, countOf_addCount, countOf_cons]
      omega

/-- The multiplier parameter of `parse_formula_section` scales every count
linearly: parsing with multiplier `m` yields `m` times the counts of parsing
with multiplier `1` (for any fuel and any accumulator). -/
theorem countOf_parseLoop_mul (e : String) :
    ∀ (fuel : Nat) (sec : List Char) (m : Nat) (acc : List (String × Nat)),
      countOf (parseLoop fuel sec m acc) e =
        countOf acc e + m * countOf (parseLoop fuel sec 1 []) e := by
  intro fuel
  induction fuel with
  | zero => intro sec m acc; simp [parseLoop, countOf]
  | succ fuel ih =>
      intro sec m acc
      cases sec with
      | nil => simp [parseLoop, countOf]
      | cons c cs =>
          by_cases hp : c = '('
          · cases hsp : splitParen cs 1 with
            | none => simp [parseLoop, hp, hsp, countOf]
            | some pr =>
                obtain ⟨sub, rest⟩ := pr
                simp only [parseLoop, if_pos hp, hsp]
                have h1 := ih (takeDigits rest).2 m
                  (mergeInto acc (parseLoop fuel sub (countValue (takeDigits rest).1 * m) []))
                have h2 := ih sub (countValue (takeDigits rest).1 * m) ([] : List (String × Nat))
                have h3 := ih (takeDigits rest).2 1
                  (mergeInto [] (parseLoop fuel sub (countValue (takeDigits rest).1 * 1) []))
                have h4 := ih sub (countValue (takeDigits rest).1 * 1) ([] : List (String × Nat))
                rw [h1, h3, countOf_mergeInto, countOf_mergeInto, h2, h4, countOf_nil]
                ring
          · by_cases hu : c.isUpper
            · simp only [parseLoop, if_neg hp, if_pos hu]
              have h1 := ih (takeDigits (elemTake c cs).2).2 m
                (addCount acc (elemTake c cs).1 (countValue (takeDigits (elemTake c cs).2).1 * m))
              have h2 := ih (takeDigits (elemTake c cs).2).2 1
                (addCount [] (elemTake c cs).1 (countValue (takeDigits (elemTake c cs).2).1 * 1))
              rw [h1, h2, countOf_addCount, countOf_addCount, countOf_nil]
              split_ifs <;> ring
            · simp only [parseLoop, if_neg hp, if_neg hu]
              exact ih cs m acc

theorem mem_addCount_pos (s : String) (n : Nat) (hn : 0 < n) :
    ∀ l : List (String × Nat), (∀ q ∈ l, 0 < q.2) → ∀ q ∈ addCount l s n, 0 < q.2 := by
  intro l
  induction l with
  | nil =>
      intro _ q hq
      simp only [addCount, List.mem_singleton] at hq
      simp [hq, hn]
  | cons p rest ih =>
      intro hl q hq
      obtain ⟨k, v⟩ := p
      rw [addCount] at hq
      split_ifs at hq with hk
      · rcases List.mem_cons.mp hq with h | h
        · have hv := hl (k, v) (List.mem_cons_self _ _)
          simp only [h]
          simp only at hv
          omega
        · exact hl q (List.mem_cons_of_mem _ h)
      · rcases List.mem_cons.mp hq with h | h
        · subst h; exact hl (k, v) (List.mem_cons_self _ _)
        · exact ih (fun r hr => hl r (List.mem_cons_of_mem _ hr)) q h

theorem mem_mergeInto_pos :
    ∀ sub acc : List (String × Nat), (∀ q ∈ acc, 0 < q.2) → (∀ q ∈ sub, 0 < q.2) →
      ∀ q ∈ mergeInto acc sub, 0 < q.2 := by
  intro sub
  induction sub with
  | nil => intro acc ha _ q hq; exact ha q hq
  | cons p rest ih =>
      intro acc ha hs q hq
      have hstep : mergeInto acc (p :: rest) = mergeInto (addCount acc p.1 p.2) rest := rfl
      rw [hstep] at hq
      exact ih _ (mem_addCount_pos p.1 p.2 (hs p (List.mem_cons_self _ _)) acc ha)
        (fun r hr => hs r (List.mem_cons_of_mem _ hr)) q hq

theorem splitParen_mem :
    ∀ (l : List Char) (d : Nat) (ins rest : List Char), splitParen l d = some (ins, rest) →
      (∀ c ∈ ins, c ∈ l) ∧ (∀ c ∈ rest, c ∈ l) := by
  intro l
  induction l with
  | nil => intro d ins rest h; simp [splitParen] at h
  | cons c cs ih =>
      intro d ins rest h
      rw [splitParen] at h
      split_ifs at h with h1 h2 h3
      · cases hsp : splitParen cs (d + 1) with
        | none => rw [hsp] at h; simp at h
        | some pr =>
            obtain ⟨i, r⟩ := pr
            rw [hsp] at h
            simp only [Option.some_inj, Prod.mk.injEq] at h
            obtain ⟨hi, hr⟩ := h
            obtain ⟨hins, hrest⟩ := ih (d + 1) i r hsp
            subst hi; subst hr
            constructor
            · intro x hx
              rcases List.mem_cons.mp hx with hx | hx
              · simp [hx]
              · exact List.mem_cons_of_mem _ (hins x hx)
            · intro x hx; exact List.mem_cons_of_mem _ (hrest x hx)
      · simp only [Option.some_inj, Prod.mk.injEq] at h
        obtain ⟨hi, hr⟩ := h
        subst hi; subst hr
        exact ⟨fun x hx => by simp at hx, fun x hx => List.mem_cons_of_mem _ hx⟩
      · cases hsp : splitParen cs (d - 1) with
        | none => rw [hsp] at h; simp at h
        | some pr =>
            obtain ⟨i, r⟩ := pr
            rw [hsp] at h
            simp only [Option.some_inj, Prod.mk.injEq] at h
            obtain ⟨hi, hr⟩ := h
            obtain ⟨hins, hrest⟩ := ih (d - 1) i r hsp
            subst hi; subst hr
            constructor
            · intro x hx
              rcases List.mem_cons.mp hx with hx | hx
              · simp [hx]
              · exact List.mem_cons_of_mem _ (hins x hx)
            · intro x hx; exact List.mem_cons_of_mem _ (hrest x hx)
      · cases hsp : splitParen cs d with
        | none => rw [hsp] at h; simp at h
        | some pr =>
            obtain ⟨i, r⟩ := pr
            rw [hsp] at h
            simp only [Option.some_inj, Prod.mk.injEq] at h
            obtain ⟨hi, hr⟩ := h
            obtain ⟨hins, hrest⟩ := ih d i r hsp
            subst hi; subst hr
            constructor
            · intro x hx
              rcases List.mem_cons.mp hx with hx | hx
              · simp [hx]
              · exact List.mem_cons_of_mem _ (hins x hx)
            · intro x hx; exact List.mem_cons_of_mem _ (hrest x hx)

theorem takeDigits_fst_subset : ∀ l : List Char, ∀ c ∈ (takeDigits l).1, c ∈ l := by
  intro l
  induction l with
  | nil => intro c hc; simp [takeDigits] at hc
  | cons x xs ih =>
      intro c hc
      rw [takeDigits] at hc
      split_ifs at hc with hd
      · simp only at hc
        rcases List.mem_cons.mp hc with h | h
        · simp [h]
        · exact List.mem_cons_of_mem _ (ih c h)
      · simp at hc

theorem takeDigits_snd_subset : ∀ l : List Char, ∀ c ∈ (takeDigits l).2, c ∈ l := by
  intro l
  induction l with
  | nil => intro c hc; simp [takeDigits] at hc
  | cons x xs ih =>
      intro c hc
      rw [takeDigits] at hc
      split_ifs at hc with hd
      · simp only at hc
        exact List.mem_cons_of_mem _ (ih c hc)
      · exact hc

theorem takeDigits_fst_digit : ∀ l : List Char, ∀ c ∈ (takeDigits l).1, c.isDigit = true := by
  intro l
  induction l with
  | nil => intro c hc; simp [takeDigits] at hc
  | cons x xs ih =>
      intro c hc
      rw [takeDigits] at hc
      split_ifs at hc with hd
      · simp only at hc
        rcases List.mem_cons.mp hc with h | h
        · subst h; exact hd
        · exact ih c h
      · simp at hc

theorem elemTake_snd_subset (c : Char) (cs : List Char) :
    ∀ x ∈ (elemTake c cs).2, x ∈ cs := by
  cases cs with
  | nil => intro x hx; simp [elemTake] at hx
  | cons d cs' =>
      intro x hx
      simp only [elemTake] at hx
      split_ifs at hx with hd
      · simp only at hx
        exact List.mem_cons_of_mem _ hx
      · exact hx

theorem digitVal_pos (c : Char) (hd : c.isDigit = true) (h0 : c ≠ '0') : 0 < digitVal c := by
  simp [Char.isDigit] at hd
  obtain ⟨h1, _⟩ := hd
  rcases Nat.lt_or_ge 48 c.toNat with hlt | hge
  · have h48 : '0'.toNat = 48 := by decide
    simp only [digitVal]
    omega
  · exact absurd (Char.ext (UInt32.ext (by simpa using Nat.le_antisymm hge h1))) h0

theorem digitsToNat_foldl_pos :
    ∀ (ds : List Char) (a : Nat), 0 < a →
      0 < ds.foldl (fun a c => a * 10 + digitVal c) a := by
  intro ds
  induction ds with
  | nil => intro a ha; simpa using ha
  | cons c rest ih =>
      intro a ha
      simp only [List.foldl_cons]
      exact ih _ (by omega)

theorem countValue_pos (ds : List Char) (hd : ∀ c ∈ ds, c.isDigit = true)
    (h0 : ∀ c ∈ ds, c ≠ '0') : 0 < countValue ds := by
  cases ds with
  | nil => simp [countValue]
  | cons c rest =>
      rw [countValue, if_neg (by simp)]
      rw [digitsToNat]
      simp only [List.foldl_cons, Nat.zero_mul, Nat.zero_add]
      exact digitsToNat_foldl_pos rest _
        (digitVal_pos c (hd c (List.mem_cons_self _ _)) (h0 c (List.mem_cons_self _ _)))

/-- Every count produced by the parse loop is positive, provided the
multiplier is positive, the accumulated counts are positive, and the section
contains no `'0'` character. -/
theorem parseLoop_pos :
    ∀ (fuel : Nat) (sec : List Char) (m : Nat) (acc : List (String × Nat)),
      0 < m → (∀ c ∈ sec, c ≠ '0') → (∀ q ∈ acc, 0 < q.2) →
      ∀ q ∈ parseLoop fuel sec m acc, 0 < q.2 := by
  intro fuel
  induction fuel with
  | zero => intro sec m acc _ _ hacc q hq; exact hacc q hq
  | succ fuel ih =>
      intro sec m acc hm hsec hacc q hq
      cases sec with
      | nil => exact hacc q hq
      | cons c cs =>
          have hcs : ∀ x ∈ cs, x ≠ '0' := fun x hx => hsec x (List.mem_cons_of_mem _ hx)
          by_cases hp : c = '('
          · rw [parseLoop, if_pos hp] at hq
            cases hsp : splitParen cs 1 with
            | none => rw [hsp] at hq; exact hacc q hq
            | some pr =>
                obtain ⟨sub, rest⟩ := pr
                rw [hsp] at hq
                simp only at hq
                obtain ⟨hsub, hrest⟩ := splitParen_mem cs 1 sub rest hsp
                have hsub0 : ∀ x ∈ sub, x ≠ '0' := fun x hx => hcs x (hsub x hx)
                have hrest0 : ∀ x ∈ rest, x ≠ '0' := fun x hx => hcs x (hrest x hx)
                have hmult : 0 < countValue (takeDigits rest).1 * m := by
                  have := countValue_pos (takeDigits rest).1
                    (takeDigits_fst_digit rest)
                    (fun x hx => hrest0 x (takeDigits_fst_subset rest x hx))
                  exact Nat.mul_pos this hm
                have hinner : ∀ r ∈ parseLoop fuel sub (countValue (takeDigits rest).1 * m) [],
                    0 < r.2 :=
                  ih sub _ [] hmult hsub0 (by simp)
                exact ih (takeDigits rest).2 m _ hm
                  (fun x hx => hrest0 x (takeDigits_snd_subset rest x hx))
                  (mem_mergeInto_pos _ acc hacc hinner) q hq
          · by_cases hu : c.isUpper
            · rw [parseLoop, if_neg hp, if_pos hu] at hq
              simp only at hq
              have her0 : ∀ x ∈ (elemTake c cs).2, x ≠ '0' :=
                fun x hx => hcs x (elemTake_snd_subset c cs x hx)
              have hn : 0 < countValue (takeDigits (elemTake c cs).2).1 * m := by
                have := countValue_pos (takeDigits (elemTake c cs).2).1
                  (takeDigits_fst_digit _)
                  (fun x hx => her0 x (takeDigits_fst_subset _ x hx))
                exact Nat.mul_pos this hm
              exact ih (takeDigits (elemTake c cs).2).2 m _ hm
                (fun x hx => her0 x (takeDigits_snd_subset _ x hx))
                (mem_addCount_pos _ _ hn acc hacc) q hq
            · rw [parseLoop, if_neg hp, if_neg hu] at hq
              exact ih cs m acc hm hcs hacc q hq

theorem splitDots_ne_nil : ∀ l : List Char, splitDots l ≠ [] := by
  intro l
  cases l with
  | nil => simp [splitDots]
  | cons c cs =>
      rw [splitDots]
      split_ifs
      · simp
      · cases hsd : splitDots cs <;> simp

theorem mem_splitDots : ∀ l : List Char, ∀ part ∈ splitDots l, ∀ c ∈ part, c ∈ l := by
  intro l
  induction l with
  | nil => intro part hpart c hc; simp [splitDots] at hpart; simp [hpart] at hc
  | cons x xs ih =>
      intro part hpart c hc
      rw [splitDots] at hpart
      split_ifs at hpart with hx
      · rcases List.mem_cons.mp hpart with h | h
        · simp [h] at hc
        · exact List.mem_cons_of_mem _ (ih part h c hc)
      · cases hsd : splitDots xs with
        | nil => exact absurd hsd (splitDots_ne_nil xs)
        | cons p ps =>
            rw [hsd] at hpart
            rcases List.mem_cons.mp hpart with h | h
            · subst h
              rcases List.mem_cons.mp hc with h | h
              · simp [h]
              · exact List.mem_cons_of_mem _ (ih p (by rw [hsd]; exact List.mem_cons_self _ _) c h)
            · exact List.mem_cons_of_mem _ (ih part (by rw [hsd]; exact List.mem_cons_of_mem _ h) c hc)

/-! ## Claim theorems about the formula decomposer -/

/-- **C2.** `decompose_formula` reproduces the four specified compositions
(`H2O`, `Ca(OH)2`, `Fe2(SO4)3`, `e-`), and group multipliers act
multiplicatively: parsing a section with multiplier `m` (the product of all
enclosing group multipliers, since a nested group is parsed with
`sub_multiplier * multiplier`) yields exactly `m` times the counts obtained
with multiplier `1`. -/
theorem decompose_formula_examples_and_group_multiplier :
    decompose_formula "H2O" = [("H", 2), ("O", 1)] ∧
    decompose_formula "Ca(OH)2" = [("Ca", 1), ("O", 2), ("H", 2)] ∧
    decompose_formula "Fe2(SO4)3" = [("Fe", 2), ("S", 3), ("O", 12)] ∧
    decompose_formula "e-" = [("E", 1)] ∧
    ∀ (sec : List Char) (m : Nat) (e : String),
      countOf (parse_formula_section sec m) e = m * countOf (parse_formula_section sec 1) e := by
  refine ⟨by decide, by decide, by decide, by decide, fun sec m e => ?_⟩
  rw [parse_formula_section, parse_formula_section, countOf_parseLoop_mul e _ sec m, countOf_nil]
  omega

/-- **C9 counterexample.** Not every count returned by `decompose_formula`
is strictly positive: the input `"H0"` (an explicit zero subscript) yields
the composition `{H: 0}`. -/
theorem decompose_formula_positive_counts_counterexample :
    ¬ ∀ q ∈ decompose_formula "H0", 0 < q.2 := by decide

theorem cleanChars_no_zero (formula : String) (h0 : '0' ∉ formula.data) :
    ∀ c ∈ cleanChars formula, c ≠ '0' := by
  intro c hcmem
  have hcf1 : c ∈ formula.data.map (fun c => if c = '·' ∨ c = '*' then '.' else c) :=
    List.mem_of_mem_filter hcmem
  obtain ⟨d, hd, hdc⟩ := List.mem_map.mp hcf1
  by_cases hdd : d = '·' ∨ d = '*'
  · rw [if_pos hdd] at hdc; subst hdc; decide
  · rw [if_neg hdd] at hdc; subst hdc; exact fun hcontra => h0 (hcontra ▸ hd)

theorem decompose_core_pos (clean : List Char) (h0 : ∀ c ∈ clean, c ≠ '0') :
    ∀ q ∈ decompose_core clean, 0 < q.2 := by
  have hmain : ∀ c ∈ (splitDots clean).headD [], c ≠ '0' := by
    cases hsd : splitDots clean with
    | nil => exact absurd hsd (splitDots_ne_nil clean)
    | cons p ps =>
        intro c hcmem
        exact h0 c (mem_splitDots clean p (by rw [hsd]; exact List.mem_cons_self _ _) c hcmem)
  have hElems : ∀ r ∈ parse_formula_section ((splitDots clean).headD []), 0 < r.2 := by
    simp only [parse_formula_section]
    exact parseLoop_pos _ _ 1 [] (by omega) hmain (by simp)
  intro q hq
  cases hfh : findHydrate (splitDots clean).tail with
  | none =>
      simp only [decompose_core, hfh] at hq
      exact hElems q hq
  | some hcount =>
      simp only [decompose_core, hfh] at hq
      split_ifs at hq with hpos
      · have hHyd : ∀ r ∈ parse_formula_section ['H', '2', 'O'] hcount, 0 < r.2 := by
          simp only [parse_formula_section]
          exact parseLoop_pos _ _ hcount [] hpos (by decide) (by simp)
        exact mem_mergeInto_pos _ _ hElems hHyd q hq
      · exact hElems q hq

/-- **C9 (amended).** For every string input that contains no `'0'`
character, every count in the composition returned by `decompose_formula` is
a positive integer.  (In general counts are nonnegative; an explicit zero
subscript such as `"H0"` produces a zero count.) -/
theorem decompose_formula_positive_counts (formula : String)
    (h0 : '0' ∉ formula.data) : ∀ q ∈ decompose_formula formula, 0 < q.2 := by
  intro q hq
  simp only [decompose_formula] at hq
  split_ifs at hq with he hc
  · simp only [List.mem_singleton] at hq
    simp [hq]
  · simp at hq
  · exact decompose_core_pos (cleanChars formula) (cleanChars_no_zero formula h0) q hq

/-- Witness for the amended C9 at the concrete input `"Ca(OH)2"`. -/
theorem decompose_formula_positive_counts_witness :
    '0' ∉ "Ca(OH)2".data ∧ ∀ q ∈ decompose_formula "Ca(OH)2", 0 < q.2 :=
  ⟨by decide, decompose_formula_positive_counts "Ca(OH)2" (by decide)⟩

/-! ## Claim theorems about the resolver and the staleness check -/

/-- **C3.** When the sources before index `i` (in the priority order burcat,
cea, nasa, nist) have no data for a species and source `i` produces record
`r`, the resolver returns exactly `r` with only its `"source"` field
overwritten by source `i`'s identifier; every other field — name,
composition, and every temperature range with all its coefficients — is
returned unchanged. -/
theorem get_thermo_data_priority (fetch : String → String → Option ThermoData)
    (theo : String → Option ThermoData) (species : String) (i : Nat) (r : ThermoData)
    (hi : i < SOURCES.length)
    (hnone : ∀ j, j < i → fetch (SOURCES.getD j "") species = none)
    (hr : fetch (SOURCES.getD i "") species = some r) :
    get_thermo_data fetch theo species = some { r with source := SOURCES.getD i "" } ∧
    ({ r with source := SOURCES.getD i "" } : ThermoData).name = r.name ∧
    ({ r with source := SOURCES.getD i "" } : ThermoData).composition = r.composition ∧
    ({ r with source := SOURCES.getD i "" } : ThermoData).ranges = r.ranges ∧
    ({ r with source := SOURCES.getD i "" } : ThermoData).source = SOURCES.getD i "" := by
  refine ⟨?_, rfl, rfl, rfl, rfl⟩
  have hi4 : i < 4 := hi
  interval_cases i
  · simp only [SOURCES, List.getD_cons_zero] at hr ⊢
    simp [get_thermo_data, resolveSources, SOURCES, hr]
  · have h0 := hnone 0 (by omega)
    simp only [SOURCES, List.getD_cons_zero, List.getD_cons_succ] at hr h0 ⊢
    simp [get_thermo_data, resolveSources, SOURCES, h0, hr]
  · have h0 := hnone 0 (by omega)
    have h1 := hnone 1 (by omega)
    simp only [SOURCES, List.getD_cons_zero, List.getD_cons_succ] at hr h0 h1 ⊢
    simp [get_thermo_data, resolveSources, SOURCES, h0, h1, hr]
  · have h0 := hnone 0 (by omega)
    have h1 := hnone 1 (by omega)
    have h2 := hnone 2 (by omega)
    simp only [SOURCES, List.getD_cons_zero, List.getD_cons_succ] at hr h0 h1 h2 ⊢
    simp [get_thermo_data, resolveSources, SOURCES, h0, h1, h2, hr]

/-- Witness for C3: a species present only in the second-priority source
(`cea`) resolves to that source's record with the provenance tag rewritten
from `"orig"` to `"cea"`. -/
theorem get_thermo_data_priority_witness :
    get_thermo_data
      (fun src _ => if src = "cea" then some (ThermoData.mk "X" "orig" [] none none none)
        else none)
      (fun _ => none) "CO2" = some (ThermoData.mk "X" "cea" [] none none none) := by
  have h := get_thermo_data_priority
    (fun src _ => if src = "cea" then some (ThermoData.mk "X" "orig" [] none none none)
      else none)
    (fun _ => none) "CO2" 1 (ThermoData.mk "X" "orig" [] none none none)
    (by norm_num [SOURCES])
    (by
      intro j hj
      interval_cases j
      simp [SOURCES])
    (by simp [SOURCES])
  simpa [SOURCES] using h.1

/-- **C8.** The staleness check returns `true` exactly when the timestamp
file does not exist, cannot be read, cannot be parsed, or records a time
more than `CHECK_INTERVAL` (7 days) before `now`; failures are reported as
staleness by the total function, never raised. -/
theorem should_update_database_iff (file : TimestampFile) (parseIso : String → Option Int)
    (now : Int) :
    should_update_database file parseIso now = true ↔
      (file = .absent ∨ file = .unreadable ∨
        ∃ s, file = .content s ∧
          (parseIso s.trim = none ∨
            ∃ t, parseIso s.trim = some t ∧ CHECK_INTERVAL < now - t)) := by
  cases file with
  | absent => simp [should_update_database]
  | unreadable => simp [should_update_database]
  | content s =>
      cases hp : parseIso s.trim with
      | none => simp [should_update_database, hp]
      | some t => simp [should_update_database, hp]

/-! ## Lemmas about the continuity pipeline -/

theorem check_preserves_ranges (d : ThermoData) :
    (check_transition_continuity d).ranges = d.ranges := by
  cases hd : d.ranges with
  | none => simp [check_transition_continuity, hd]
  | some rs =>
      simp only [check_transition_continuity, hd]
      split_ifs <;> simp [hd]

theorem check_preserves_optimizations (d : ThermoData) :
    (check_transition_continuity d).optimizations = d.optimizations := by
  cases hd : d.ranges with
  | none => simp [check_transition_continuity, hd]
  | some rs =>
      simp only [check_transition_continuity, hd]
      split_ifs <;> simp

theorem effectiveDiagRecord_ranges (d : ThermoData) :
    (effectiveDiagRecord d).ranges = d.ranges := by
  cases hdg : d.transition_diagnostics with
  | none =>
      simp only [effectiveDiagRecord, hdg]
      exact check_preserves_ranges d
  | some ds => simp [effectiveDiagRecord, hdg]

theorem effectiveDiagRecord_optimizations (d : ThermoData) :
    (effectiveDiagRecord d).optimizations = d.optimizations := by
  cases hdg : d.transition_diagnostics with
  | none =>
      simp only [effectiveDiagRecord, hdg]
      exact check_preserves_optimizations d
  | some ds => simp [effectiveDiagRecord, hdg]

/-- When every effective diagnostic is within tolerance the optimizer
changes neither the ranges nor the optimization history. -/
theorem optimize_noop_aux (d : ThermoData) (tol : ℝ) (maxAdj : Nat)
    (h : ∀ g ∈ (effectiveDiagRecord d).transition_diagnostics.getD [],
        g.within_tolerance ≠ some false) :
    (optimize_transition_continuity d tol maxAdj).ranges = d.ranges ∧
    (optimize_transition_continuity d tol maxAdj).optimizations = d.optimizations := by
  have hneeds : needsAdjustment (effectiveDiagRecord d) = false := by
    rw [needsAdjustment, List.any_eq_false]
    intro g hg
    cases hw : g.within_tolerance with
    | none => simp
    | some b =>
        cases b with
        | false => exact absurd hw (h g hg)
        | true => simp
  refine ⟨?_, ?_⟩
  · cases hd : d.ranges with
    | none => simp [optimize_transition_continuity, hd]
    | some rs =>
        simp only [optimize_transition_continuity, hd, hneeds, Bool.false_eq_true, if_false]
        split_ifs with hlen
        · exact hd
        · rw [effectiveDiagRecord_ranges]; exact hd
  · cases hd : d.ranges with
    | none => simp [optimize_transition_continuity, hd]
    | some rs =>
        simp only [optimize_transition_continuity, hd, hneeds, Bool.false_eq_true, if_false]
        split_ifs with hlen
        · rfl
        · exact effectiveDiagRecord_optimizations d

/-- The diagnostic of a pair of ranges with equal coefficients at a positive
boundary temperature reports `within_tolerance = true`. -/
theorem checkPair_self_within (r : TempRange) (hT : 0 < r.tmax) :
    (checkPair r r).within_tolerance = some true := by
  have hcond : ¬(r.tmax ≤ 0 ∧ (7 ≤ r.coefficients.length ∨ 7 ≤ r.coefficients.length)) := by
    intro hcontra
    linarith [hcontra.1]
  simp only [checkPair, if_neg hcond, sub_self]
  norm_num

/-- The effective diagnostics of `rec4` consist of one within-tolerance
entry. -/
theorem rec4_diags_ok :
    ∀ g ∈ (effectiveDiagRecord rec4).transition_diagnostics.getD [],
      g.within_tolerance ≠ some false := by
  have hdiag : (effectiveDiagRecord rec4).transition_diagnostics = some [checkPair cr4 cr4] := by
    simp [effectiveDiagRecord, rec4, check_transition_continuity]
  rw [hdiag]
  intro g hg
  simp only [Option.getD_some, List.mem_singleton] at hg
  rw [hg, checkPair_self_within cr4 (by norm_num [cr4])]
  simp

/-! ## Claim theorems about the continuity optimizer (C4) -/

/-- **C4 counterexample.** `rec4` has two identical ranges, so every
boundary discontinuity is zero (within the `1e-3` tolerance); running the
optimizer leaves the coefficients unchanged but appends NO optimization
event at all — `"optimizations"` stays absent, so no `applied=false` event
exists, contrary to the claim. -/
theorem optimize_transition_no_event_counterexample :
    (optimize_transition_continuity rec4 1e-3 10).optimizations = none ∧
    (optimize_transition_continuity rec4 1e-3 10).ranges = some [cr4, cr4] := by
  obtain ⟨h1, h2⟩ := optimize_noop_aux rec4 1e-3 10 rec4_diags_ok
  exact ⟨by rw [h2]; rfl, by rw [h1]; rfl⟩

/-- **C4 (amended).** For every record whose effective diagnostics
(pre-existing ones if the record carries any, else those computed by the
check) are all within tolerance, the Continuity Optimizer leaves every range
(hence every coefficient) unchanged and appends NO optimization event: the
early return skips the event append, and an event is only ever recorded with
`applied = true`. -/
theorem optimize_transition_within_tolerance_noop (d : ThermoData) (tol : ℝ) (maxAdj : Nat)
    (h : ∀ g ∈ (effectiveDiagRecord d).transition_diagnostics.getD [],
        g.within_tolerance ≠ some false) :
    (optimize_transition_continuity d tol maxAdj).ranges = d.ranges ∧
    (optimize_transition_continuity d tol maxAdj).optimizations = d.optimizations :=
  optimize_noop_aux d tol maxAdj h

/-- Witness for the amended C4 at the concrete record `rec4`. -/
theorem optimize_transition_within_tolerance_noop_witness :
    (∀ g ∈ (effectiveDiagRecord rec4).transition_diagnostics.getD [],
        g.within_tolerance ≠ some false) ∧
    (optimize_transition_continuity rec4 1e-3 10).ranges = rec4.ranges ∧
    (optimize_transition_continuity rec4 1e-3 10).optimizations = rec4.optimizations :=
  ⟨rec4_diags_ok, optimize_transition_within_tolerance_noop rec4 1e-3 10 rec4_diags_ok⟩

/-! ## Lemmas about the coverage extender -/

theorem mem_insertByTmin (r x : TempRange) :
    ∀ l : List TempRange, x ∈ insertByTmin r l ↔ x = r ∨ x ∈ l := by
  intro l
  induction l with
  | nil => simp [insertByTmin]
  | cons y ys ih =>
      rw [insertByTmin]
      split_ifs with hle
      · simp [List.mem_cons]
      · rw [List.mem_cons, ih, List.mem_cons]
        tauto

theorem mem_sortRanges (x : TempRange) :
    ∀ l : List TempRange, x ∈ sortRanges l ↔ x ∈ l := by
  intro l
  induction l with
  | nil => simp [sortRanges]
  | cons y ys ih =>
      rw [sortRanges, mem_insertByTmin, ih, List.mem_cons]

/-- Any record with a range overlapping the `100–400 K` band is returned
unchanged by the extender. -/
theorem ensure_noop_aux (d : ThermoData) (rs : List TempRange) (hd : d.ranges = some rs)
    (hover : ∃ r ∈ rs, r.tmin ≤ 400 ∧ 100 ≤ r.tmax) :
    ensure_cold_range_coverage d TEMP_COLD_RANGE = d := by
  obtain ⟨r, hr, h1, h2⟩ := hover
  have hne : rs.isEmpty = false := by
    cases rs with
    | nil => simp at hr
    | cons a l => simp
  have hcov : (sortRanges rs).any (fun r =>
      decide (r.tmin ≤ TEMP_COLD_RANGE.1 ∧ TEMP_COLD_RANGE.2 ≤ r.tmax) ||
        decide (r.tmin ≤ TEMP_COLD_RANGE.2 ∧ TEMP_COLD_RANGE.1 ≤ r.tmax)) = true := by
    rw [List.any_eq_true]
    refine ⟨r, (mem_sortRanges r rs).mpr hr, ?_⟩
    rw [Bool.or_eq_true]
    right
    rw [decide_eq_true_iff]
    simp only [TEMP_COLD_RANGE]
    exact ⟨h1, h2⟩
  simp only [ensure_cold_range_coverage, hd, hne, Bool.false_eq_true, if_false, hcov, if_true]

/-! ## Lemmas about the adjustment loop (C6) -/

theorem getD_set_ne (l : List ℝ) (i j : Nat) (x : ℝ) (h : i ≠ j) :
    (l.set i x).getD j 0 = l.getD j 0 := by
  simp [List.getD_eq_getElem?_getD, List.getElem?_set_ne h]

theorem getD_set_self (l : List ℝ) (i : Nat) (x : ℝ) (h : i < l.length) :
    (l.set i x).getD i 0 = x := by
  simp [List.getD_eq_getElem?_getD, List.getElem?_set_eq_of_lt x h]

theorem set_getD_self : ∀ (l : List ℝ) (i : Nat), i < l.length → l.set i (l.getD i 0) = l := by
  intro l
  induction l with
  | nil => intro i hi; simp at hi
  | cons a as ih =>
      intro i hi
      cases i with
      | zero => simp [List.getD]
      | succ n =>
          simp only [List.set, List.getD_cons_succ]
          rw [ih n (by simpa using hi)]

theorem compute_cp_set6 (c : List ℝ) (x T : ℝ) (h7 : 7 ≤ c.length) :
    compute_cp (c.set 6 x) T = compute_cp c T := by
  simp only [compute_cp, List.length_set]
  rw [getD_set_ne c 6 0 x (by omega), getD_set_ne c 6 1 x (by omega),
    getD_set_ne c 6 2 x (by omega), getD_set_ne c 6 3 x (by omega),
    getD_set_ne c 6 4 x (by omega)]

theorem compute_h_set6 (c : List ℝ) (x T tref : ℝ) (h7 : 7 ≤ c.length) :
    compute_h (c.set 6 x) T tref = compute_h c T tref := by
  simp only [compute_h, List.length_set]
  rw [getD_set_ne c 6 0 x (by omega), getD_set_ne c 6 1 x (by omega),
    getD_set_ne c 6 2 x (by omega), getD_set_ne c 6 3 x (by omega),
    getD_set_ne c 6 4 x (by omega), getD_set_ne c 6 5 x (by omega)]

theorem compute_s_set6 (c : List ℝ) (x T : ℝ) (h7 : 7 ≤ c.length) :
    compute_s (c.set 6 x) T = compute_s c T - c.getD 6 0 + x := by
  simp only [compute_s, List.length_set]
  rw [if_neg (by omega), if_neg (by omega), getD_set_ne c 6 0 x (by omega),
    getD_set_ne c 6 1 x (by omega), getD_set_ne c 6 2 x (by omega),
    getD_set_ne c 6 3 x (by omega), getD_set_ne c 6 4 x (by omega),
    getD_set_self c 6 x (by omega)]
  ring

/-- One iteration of the adjustment loop on a pair that differs only in
`a7`: the heat-capacity and enthalpy gaps are zero, so only the 50% `a7`
nudge fires, halving the entropy offset. -/
theorem adjustLoop_a7_step (c : List ℝ) (y T tref : ℝ) (hc : c.length = 9)
    (fuel : Nat) (hδ : ¬|y - c.getD 6 0| < 1e-3) :
    adjustLoop (fuel + 1) c (c.set 6 y) T tref 1e-3 =
      adjustLoop fuel c (c.set 6 (y - (y - c.getD 6 0) * 0.5)) T tref 1e-3 := by
  have h7 : 7 ≤ c.length := by omega
  have hcp : compute_cp (c.set 6 y) T = compute_cp c T := compute_cp_set6 c y T h7
  have hh : compute_h (c.set 6 y) T tref = compute_h c T tref := compute_h_set6 c y T tref h7
  have hs : compute_s (c.set 6 y) T = compute_s c T - c.getD 6 0 + y := compute_s_set6 c y T h7
  have e1 : compute_s c T - c.getD 6 0 + y - compute_s c T = y - c.getD 6 0 := by ring
  simp only [adjustLoop, hcp, hh, hs, sub_self, e1]
  rw [if_neg (fun hcon => hδ hcon.2.2)]
  have e2 : (c.set 6 y).getD 5 0 - 0 * T * 0.5 = (c.set 6 y).getD 5 0 := by ring
  rw [e2, set_getD_self (c.set 6 y) 5 (by rw [List.length_set]; omega),
    getD_set_self c 6 y (by omega), List.set_set]
  rw [if_neg (by norm_num : ¬((1e-3:ℝ) < |(0:ℝ)|))]

/-- When the remaining `a7` offset is below tolerance the loop stops at once. -/
theorem adjustLoop_a7_stop (c : List ℝ) (y T tref : ℝ) (hc : c.length = 9)
    (fuel : Nat) (hδ : |y - c.getD 6 0| < 1e-3) :
    adjustLoop (fuel + 1) c (c.set 6 y) T tref 1e-3 = c.set 6 y := by
  have h7 : 7 ≤ c.length := by omega
  have hcp : compute_cp (c.set 6 y) T = compute_cp c T := compute_cp_set6 c y T h7
  have hh : compute_h (c.set 6 y) T tref = compute_h c T tref := compute_h_set6 c y T tref h7
  have hs : compute_s (c.set 6 y) T = compute_s c T - c.getD 6 0 + y := compute_s_set6 c y T h7
  have e1 : compute_s c T - c.getD 6 0 + y - compute_s c T = y - c.getD 6 0 := by ring
  simp only [adjustLoop, hcp, hh, hs, sub_self, e1]
  rw [if_pos ⟨by norm_num, by norm_num, hδ⟩]

/-- On an `a7` offset of `+0.01` the loop halves the gap four times
(`1/100 → 1/200 → 1/400 → 1/800 → 1/1600`) and then stops, the offset
`1/1600` being below the `1e-3` tolerance. -/
theorem adjustLoop_a7_scenario (c : List ℝ) (T tref : ℝ) (hc : c.length = 9) :
    adjustLoop 10 c (c.set 6 (c.getD 6 0 + 1 / 100)) T tref 1e-3 =
      c.set 6 (c.getD 6 0 + 1 / 1600) := by
  have hst1 := adjustLoop_a7_step c (c.getD 6 0 + 1 / 100) T tref hc 9
    (by rw [show c.getD 6 0 + 1 / 100 - c.getD 6 0 = 1 / 100 by ring,
      abs_of_pos (by norm_num : (0:ℝ) < 1 / 100)]; norm_num)
  have hst2 := adjustLoop_a7_step c (c.getD 6 0 + 1 / 200) T tref hc 8
    (by rw [show c.getD 6 0 + 1 / 200 - c.getD 6 0 = 1 / 200 by ring,
      abs_of_pos (by norm_num : (0:ℝ) < 1 / 200)]; norm_num)
  have hst3 := adjustLoop_a7_step c (c.getD 6 0 + 1 / 400) T tref hc 7
    (by rw [show c.getD 6 0 + 1 / 400 - c.getD 6 0 = 1 / 400 by ring,
      abs_of_pos (by norm_num : (0:ℝ) < 1 / 400)]; norm_num)
  have hst4 := adjustLoop_a7_step c (c.getD 6 0 + 1 / 800) T tref hc 6
    (by rw [show c.getD 6 0 + 1 / 800 - c.getD 6 0 = 1 / 800 by ring,
      abs_of_pos (by norm_num : (0:ℝ) < 1 / 800)]; norm_num)
  have hst5 := adjustLoop_a7_stop c (c.getD 6 0 + 1 / 1600) T tref hc 5
    (by rw [show c.getD 6 0 + 1 / 1600 - c.getD 6 0 = 1 / 1600 by ring,
      abs_of_pos (by norm_num : (0:ℝ) < 1 / 1600)]; norm_num)
  rw [show (10:Nat) = 9 + 1 from rfl, hst1,
    show c.getD 6 0 + 1 / 100 - (c.getD 6 0 + 1 / 100 - c.getD 6 0) * 0.5 =
      c.getD 6 0 + 1 / 200 by ring,
    show (9:Nat) = 8 + 1 from rfl, hst2,
    show c.getD 6 0 + 1 / 200 - (c.getD 6 0 + 1 / 200 - c.getD 6 0) * 0.5 =
      c.getD 6 0 + 1 / 400 by ring,
    show (8:Nat) = 7 + 1 from rfl, hst3,
    show c.getD 6 0 + 1 / 400 - (c.getD 6 0 + 1 / 400 - c.getD 6 0) * 0.5 =
      c.getD 6 0 + 1 / 800 by ring,
    show (7:Nat) = 6 + 1 from rfl, hst4,
    show c.getD 6 0 + 1 / 800 - (c.getD 6 0 + 1 / 800 - c.getD 6 0) * 0.5 =
      c.getD 6 0 + 1 / 1600 by ring,
    show (6:Nat) = 5 + 1 from rfl, hst5]

/-- The pair loop on a two-range record adjusts exactly the upper range. -/
theorem adjustAllPairs_two (tol : ℝ) (maxAdj : Nat) (r1 r2 : TempRange)
    (h1 : ¬(r1.coefficients.length < 7 ∨ r2.coefficients.length < 7)) :
    adjustAllPairs tol maxAdj [r1, r2] =
      [r1, TempRange.mk r2.tmin r2.tmax r2.tref
        (adjustLoop maxAdj r1.coefficients r2.coefficients r1.tmax r1.tref tol)] := by
  have hr : List.range ([r1, r2].length - 1) = [0] := rfl
  rw [adjustAllPairs, hr]
  simp only [List.foldl_cons, List.foldl_nil, adjustStep]
  simp only [List.get?_cons_zero, List.get?_cons_succ]
  rw [if_neg h1]
  rfl

/-- The boundary diagnostic of an `a7`-offset pair reports
`within_tolerance = false`. -/
theorem checkPair_a7_offset (t1 T tref t2 tref2 : ℝ) (c : List ℝ)
    (hc : c.length = 9) (hT : 0 < T) :
    (checkPair ⟨t1, T, tref, c⟩ ⟨T, t2, tref2, c.set 6 (c.getD 6 0 + 1 / 100)⟩).within_tolerance =
      some false := by
  have h7 : 7 ≤ c.length := by omega
  have hcond : ¬((⟨t1, T, tref, c⟩ : TempRange).tmax ≤ 0 ∧
      (7 ≤ (⟨t1, T, tref, c⟩ : TempRange).coefficients.length ∨
        7 ≤ (⟨T, t2, tref2, c.set 6 (c.getD 6 0 + 1 / 100)⟩ : TempRange).coefficients.length)) :=
    fun h => absurd h.1 (not_le.mpr hT)
  simp only [checkPair, if_neg hcond]
  have hcp : compute_cp (c.set 6 (c.getD 6 0 + 1 / 100)) T = compute_cp c T :=
    compute_cp_set6 c _ T h7
  have hh : compute_h (c.set 6 (c.getD 6 0 + 1 / 100)) T tref = compute_h c T tref :=
    compute_h_set6 c _ T tref h7
  have hs : compute_s (c.set 6 (c.getD 6 0 + 1 / 100)) T =
      compute_s c T - c.getD 6 0 + (c.getD 6 0 + 1 / 100) := compute_s_set6 c _ T h7
  have e1 : compute_s c T - c.getD 6 0 + (c.getD 6 0 + 1 / 100) - compute_s c T =
      (1 : ℝ) / 100 := by ring
  simp only [hcp, hh, hs, sub_self, e1]
  rw [decide_eq_false]
  intro hcon
  have := hcon.2.2
  rw [show |(1:ℝ) / 100| = 1 / 100 by norm_num] at this
  norm_num at this

/-- Running the optimizer on a two-range record whose upper range equals the
lower's coefficients with `a7` offset by `+0.01`: after four halvings the
offset is `1/1600`, the other coefficients and the lower range are
untouched, and one `applied=true` event is appended. -/
theorem optimize_a7_aux (nm src : String) (comp : List (String × Nat))
    (t1 T t2 tref tref2 : ℝ) (c : List ℝ) (hc : c.length = 9) (hT : 0 < T) :
    (optimize_transition_continuity
        ⟨nm, src, comp,
          some [⟨t1, T, tref, c⟩, ⟨T, t2, tref2, c.set 6 (c.getD 6 0 + 1 / 100)⟩],
          none, none⟩ 1e-3 10).ranges =
      some [⟨t1, T, tref, c⟩, ⟨T, t2, tref2, c.set 6 (c.getD 6 0 + 1 / 1600)⟩] ∧
    (optimize_transition_continuity
        ⟨nm, src, comp,
          some [⟨t1, T, tref, c⟩, ⟨T, t2, tref2, c.set 6 (c.getD 6 0 + 1 / 100)⟩],
          none, none⟩ 1e-3 10).optimizations =
      some [⟨"transition_continuity", true, 1e-3⟩] := by
  have hlen : (c.set 6 (c.getD 6 0 + 1 / 100)).length = 9 := by
    rw [List.length_set, hc]
  have heff : effectiveDiagRecord
      ⟨nm, src, comp,
        some [⟨t1, T, tref, c⟩, ⟨T, t2, tref2, c.set 6 (c.getD 6 0 + 1 / 100)⟩],
        none, none⟩ =
      ⟨nm, src, comp,
        some [⟨t1, T, tref, c⟩, ⟨T, t2, tref2, c.set 6 (c.getD 6 0 + 1 / 100)⟩],
        some [checkPair ⟨t1, T, tref, c⟩ ⟨T, t2, tref2, c.set 6 (c.getD 6 0 + 1 / 100)⟩],
        none⟩ := by
    simp [effectiveDiagRecord, check_transition_continuity]
  have hneeds : needsAdjustment (effectiveDiagRecord
      ⟨nm, src, comp,
        some [⟨t1, T, tref, c⟩, ⟨T, t2, tref2, c.set 6 (c.getD 6 0 + 1 / 100)⟩],
        none, none⟩) = true := by
    rw [heff, needsAdjustment]
    have hwt := checkPair_a7_offset t1 T tref t2 tref2 c hc hT
    simp only [Option.getD_some, List.any_cons, List.any_nil, hwt, Bool.not_false,
      Bool.or_false]
  have hguard : ¬((⟨t1, T, tref, c⟩ : TempRange).coefficients.length < 7 ∨
      (⟨T, t2, tref2, c.set 6 (c.getD 6 0 + 1 / 100)⟩ : TempRange).coefficients.length < 7) := by
    intro hcon
    rcases hcon with hcon | hcon
    · rw [show (⟨t1, T, tref, c⟩ : TempRange).coefficients = c from rfl, hc] at hcon
      omega
    · rw [show (⟨T, t2, tref2, c.set 6 (c.getD 6 0 + 1 / 100)⟩ : TempRange).coefficients =
          c.set 6 (c.getD 6 0 + 1 / 100) from rfl, hlen] at hcon
      omega
  have hadj : adjustAllPairs 1e-3 10
      [⟨t1, T, tref, c⟩, ⟨T, t2, tref2, c.set 6 (c.getD 6 0 + 1 / 100)⟩] =
      [⟨t1, T, tref, c⟩, ⟨T, t2, tref2, c.set 6 (c.getD 6 0 + 1 / 1600)⟩] := by
    rw [adjustAllPairs_two 1e-3 10 _ _ hguard]
    show [(⟨t1, T, tref, c⟩ : TempRange),
      ⟨T, t2, tref2, adjustLoop 10 c (c.set 6 (c.getD 6 0 + 1 / 100)) T tref 1e-3⟩] = _
    rw [adjustLoop_a7_scenario c T tref hc]
  simp only [optimize_transition_continuity, List.length_cons, List.length_nil, hneeds,
    if_true]
  rw [if_neg (by omega)]
  constructor
  · rw [check_preserves_ranges]
    simp only [hadj]
  · rw [check_preserves_optimizations]
    simp only [effectiveDiagRecord_optimizations, hneeds]
    rfl

/-! ## Claim theorems about the optimizer's adjustment scheme (C6) -/

/-- **C6 counterexample.** On a pair whose upper range differs from the lower
only by an `a7` offset of `+0.01`, the Continuity Optimizer changes `a7` of
the upper range (from `10 + 1/100` to `10 + 1/1600`): the claimed procedure —
coordinate descent trying `±1e-4`/`±1e-5` on the first three coefficients
(a1–a3) only — could never alter `a7`, so the claim's description of the
algorithm is wrong. -/
theorem optimize_descent_counterexample :
    (optimize_transition_continuity
        ⟨"X", "s", [], some [⟨200, 1000, 298.15, [2.5, 0, 0, 0, 0, -1, 10, 0, 0]⟩,
          ⟨1000, 6000, 298.15, [2.5, 0, 0, 0, 0, -1, 10 + 1 / 100, 0, 0]⟩],
          none, none⟩ 1e-3 10).ranges =
      some [⟨200, 1000, 298.15, [2.5, 0, 0, 0, 0, -1, 10, 0, 0]⟩,
        ⟨1000, 6000, 298.15, [2.5, 0, 0, 0, 0, -1, 10 + 1 / 1600, 0, 0]⟩] ∧
    ((10:ℝ) + 1 / 1600 ≠ 10 + 1 / 100) := by
  have h := (optimize_a7_aux "X" "s" [] 200 1000 6000 298.15 298.15
    [2.5, 0, 0, 0, 0, -1, 10, 0, 0] rfl (by norm_num)).1
  have hset1 : ([2.5, 0, 0, 0, 0, -1, 10, 0, 0] : List ℝ).set 6
      (([2.5, 0, 0, 0, 0, -1, 10, 0, 0] : List ℝ).getD 6 0 + 1 / 100) =
      [2.5, 0, 0, 0, 0, -1, 10 + 1 / 100, 0, 0] := by
    norm_num [List.set, List.getD]
  have hset2 : ([2.5, 0, 0, 0, 0, -1, 10, 0, 0] : List ℝ).set 6
      (([2.5, 0, 0, 0, 0, -1, 10, 0, 0] : List ℝ).getD 6 0 + 1 / 1600) =
      [2.5, 0, 0, 0, 0, -1, 10 + 1 / 1600, 0, 0] := by
    norm_num [List.set, List.getD]
  rw [hset1, hset2] at h
  exact ⟨h, by norm_num⟩

/-- **C6 (amended).** For an adjacent out-of-tolerance pair the Continuity
Optimizer does not run a `±1e-4`/`±1e-5` coordinate descent over a1–a3 (that
scheme belongs to the Cold-Range Refiner, `optimize_cold_range_accuracy`);
instead, each of its at most 10 iterations subtracts 50% of the enthalpy gap
times the boundary temperature from `a6` and 50% of the entropy gap from
`a7` of the upper range (plus an a1–a5 redistribution only when the
heat-capacity gap exceeds tolerance), stopping once all three gaps are
within tolerance.  Concretely, an `a7`-only offset of `+0.01` is halved four
times to `1/1600 < 1e-3`, every other coefficient is unchanged, and one
`applied=true` event is appended. -/
theorem optimize_transition_a7_halving (nm src : String) (comp : List (String × Nat))
    (t1 T t2 tref tref2 : ℝ) (c : List ℝ) (hc : c.length = 9) (hT : 0 < T) :
    (optimize_transition_continuity
        ⟨nm, src, comp,
          some [⟨t1, T, tref, c⟩, ⟨T, t2, tref2, c.set 6 (c.getD 6 0 + 1 / 100)⟩],
          none, none⟩ 1e-3 10).ranges =
      some [⟨t1, T, tref, c⟩, ⟨T, t2, tref2, c.set 6 (c.getD 6 0 + 1 / 1600)⟩] ∧
    (optimize_transition_continuity
        ⟨nm, src, comp,
          some [⟨t1, T, tref, c⟩, ⟨T, t2, tref2, c.set 6 (c.getD 6 0 + 1 / 100)⟩],
          none, none⟩ 1e-3 10).optimizations =
      some [⟨"transition_continuity", true, 1e-3⟩] :=
  optimize_a7_aux nm src comp t1 T t2 tref tref2 c hc hT

/-- Witness for the amended C6 at a concrete record. -/
theorem optimize_transition_a7_halving_witness :
    (([2.5, 0, 0, 0, 0, -1, 10, 0, 0] : List ℝ).length = 9 ∧ (0:ℝ) < 1000) ∧
    (optimize_transition_continuity
        ⟨"Xw", "s", [], some [⟨200, 1000, 298.15, ([2.5, 0, 0, 0, 0, -1, 10, 0, 0] : List ℝ)⟩,
          ⟨1000, 6000, 298.15, ([2.5, 0, 0, 0, 0, -1, 10, 0, 0] : List ℝ).set 6
            (([2.5, 0, 0, 0, 0, -1, 10, 0, 0] : List ℝ).getD 6 0 + 1 / 100)⟩],
          none, none⟩ 1e-3 10).ranges =
      some [⟨200, 1000, 298.15, ([2.5, 0, 0, 0, 0, -1, 10, 0, 0] : List ℝ)⟩,
        ⟨1000, 6000, 298.15, ([2.5, 0, 0, 0, 0, -1, 10, 0, 0] : List ℝ).set 6
          (([2.5, 0, 0, 0, 0, -1, 10, 0, 0] : List ℝ).getD 6 0 + 1 / 1600)⟩] :=
  ⟨⟨rfl, by norm_num⟩,
    (optimize_transition_a7_halving "Xw" "s" [] 200 1000 6000 298.15 298.15
      [2.5, 0, 0, 0, 0, -1, 10, 0, 0] rfl (by norm_num)).1⟩

/-! ## Claim theorems about the coverage extender (C5) -/

/-- **C5 counterexample.** `rec5`'s lowest range starts at 200 K; the
extender returns the record unchanged (a range with `T-min ≤ 400` and
`T-max ≥ 100` partially overlaps the cold band, which counts as coverage),
so no new range with bounds `[100 K, 200 K]` exists afterwards. -/
theorem ensure_cold_range_counterexample :
    ensure_cold_range_coverage rec5 TEMP_COLD_RANGE = rec5 ∧
    ∀ r ∈ (ensure_cold_range_coverage rec5 TEMP_COLD_RANGE).ranges.getD [], r.tmin ≠ 100 := by
  have h := ensure_noop_aux rec5 [⟨200, 1000, 298.15, [2.5, 0, 0, 0, 0, -1, 10, 0, 0]⟩] rfl
    ⟨⟨200, 1000, 298.15, [2.5, 0, 0, 0, 0, -1, 10, 0, 0]⟩, by simp, by norm_num⟩
  refine ⟨h, ?_⟩
  rw [h]
  intro r hr
  simp only [rec5, Option.getD_some, List.mem_singleton] at hr
  rw [hr]
  norm_num

/-- **C5 (amended).** A record with any range overlapping the `100–400 K`
cold band — in particular one whose lowest range starts at 200 K, which
partially overlaps it — is returned UNCHANGED by the Coverage Extender: the
new `[100 K, T-min]` extrapolated range is synthesized only when no range
overlaps the band at all. -/
theorem ensure_cold_range_overlap_unchanged (d : ThermoData) (rs : List TempRange)
    (hd : d.ranges = some rs) (hover : ∃ r ∈ rs, r.tmin ≤ 400 ∧ 100 ≤ r.tmax) :
    ensure_cold_range_coverage d TEMP_COLD_RANGE = d :=
  ensure_noop_aux d rs hd hover

/-- Witness for the amended C5 at the concrete record `rec5`. -/
theorem ensure_cold_range_overlap_unchanged_witness :
    rec5.ranges = some [⟨200, 1000, 298.15, [2.5, 0, 0, 0, 0, -1, 10, 0, 0]⟩] ∧
    (∃ r ∈ [(⟨200, 1000, 298.15, [2.5, 0, 0, 0, 0, -1, 10, 0, 0]⟩ : TempRange)],
      r.tmin ≤ 400 ∧ 100 ≤ r.tmax) ∧
    ensure_cold_range_coverage rec5 TEMP_COLD_RANGE = rec5 :=
  ⟨rfl, ⟨⟨200, 1000, 298.15, [2.5, 0, 0, 0, 0, -1, 10, 0, 0]⟩, by simp, by norm_num⟩,
    ensure_cold_range_overlap_unchanged rec5
      [⟨200, 1000, 298.15, [2.5, 0, 0, 0, 0, -1, 10, 0, 0]⟩] rfl
      ⟨⟨200, 1000, 298.15, [2.5, 0, 0, 0, 0, -1, 10, 0, 0]⟩, by simp, by norm_num⟩⟩

end Thermo
